import Mathlib

/-!
Verification development for the forky event-graph / process-supervisor core.

The definitions below are a shallow embedding of the Rust sources:
  - src/forky/src/claude/events.rs   (NDJSON event extraction)
  - src/forky/src/db/graph.rs        (graph store, indices, edges)
  - src/forky/src/process/spawn.rs   (process result assembly)
  - src/forky/src/process/pool.rs    (pooled spawning, concurrency ceiling)
  - src/forky/src/server/mod.rs      (batch ingestion handler)

Machine strings are Lean `String` values; UTF-8 byte positions are made
explicit where the Rust code indexes by byte.  JSON values (serde_json
`Value`) are modeled by the inductive `Json` below; JSON numbers are
modeled as integers, which covers every numeric field the verified
claims touch (the f64 cost fields are carried through but never
inspected by a claim).
-/

set_option maxHeartbeats 1600000
set_option maxRecDepth 40000

namespace Forky

/-- Model of a parsed `serde_json::Value`.  Objects keep their key-value
pairs as an association list; lookups take the first matching key. -/
inductive Json where
  | null : Json
  | bool (b : Bool) : Json
  | num (n : Int) : Json
  | str (s : String) : Json
  | arr (xs : List Json) : Json
  | obj (kvs : List (String × Json)) : Json
deriving Inhabited

/-- Model of `Value::get(key)` on a JSON value: field lookup on objects,
nothing on every other variant. -/
def Json.get : Json → String → Option Json
  | .obj kvs, k =>
    match kvs.find? (fun kv => kv.1 = k) with
    | some kv => some kv.2
    | none => none
  | _, _ => none

/-- Model of `Value::as_str`. -/
def Json.as_str : Json → Option String
  | .str s => some s
  | _ => none

/-- Model of `Value::as_bool`. -/
def Json.as_bool : Json → Option Bool
  | .bool b => some b
  | _ => none

/-- Model of `Value::as_array`. -/
def Json.as_array : Json → Option (List Json)
  | .arr xs => some xs
  | _ => none

/-- Model of `Value::as_u64`: succeeds on non-negative integral numbers. -/
def Json.as_u64 : Json → Option Nat
  | .num n => if 0 ≤ n then some n.toNat else none
  | _ => none

/-- Model of `Value::as_f64` restricted to the integral numbers carried by
the `Json` model (the claims never inspect fractional values). -/
def Json.as_f64 : Json → Option Int
  | .num n => some n
  | _ => none

/-- Field lookup composed with string extraction, the ubiquitous
`value.get(k).and_then(Value::as_str)` pattern. -/
def Json.getStr (v : Json) (k : String) : Option String :=
  (v.get k).bind Json.as_str

/-- Rust `char::is_whitespace` (Unicode White_Space property). -/
def rustIsWhitespace (c : Char) : Bool :=
  c ∈ ['\t', '\n', (Char.ofNat 0xB), (Char.ofNat 0xC), '\r', ' ',
    (Char.ofNat 0x85), (Char.ofNat 0xA0), (Char.ofNat 0x1680),
    (Char.ofNat 0x2000), (Char.ofNat 0x2001), (Char.ofNat 0x2002),
    (Char.ofNat 0x2003), (Char.ofNat 0x2004), (Char.ofNat 0x2005),
    (Char.ofNat 0x2006), (Char.ofNat 0x2007), (Char.ofNat 0x2008),
    (Char.ofNat 0x2009), (Char.ofNat 0x200A), (Char.ofNat 0x2028),
    (Char.ofNat 0x2029), (Char.ofNat 0x202F), (Char.ofNat 0x205F),
    (Char.ofNat 0x3000)]

/-- Rust `str::trim` on a character list: drop leading and trailing
whitespace. -/
def rustTrimList (cs : List Char) : List Char :=
  ((cs.dropWhile rustIsWhitespace).reverse.dropWhile rustIsWhitespace).reverse

/-- Does `pat` occur at the head of `cs`? -/
def listStartsWith (pat cs : List Char) : Bool :=
  match pat, cs with
  | [], _ => true
  | _ :: _, [] => false
  | p :: ps, c :: rest => p = c && listStartsWith ps rest

/-- Index of the first occurrence of `pat` inside `cs`, if any. -/
def findSub (pat : List Char) : List Char → Option Nat
  | [] => if listStartsWith pat [] then some 0 else none
  | c :: rest =>
    if listStartsWith pat (c :: rest) then some 0
    else (findSub pat rest).map (· + 1)

/-- Opening sentinel of the injected noise blocks. -/
def openTag : List Char := "<system-reminder>".toList

/-- Closing sentinel of the injected noise blocks. -/
def closeTag : List Char := "</system-reminder>".toList

/-- One-pass removal of every non-overlapping minimal
`openTag … closeTag` block, mirroring
`Regex::replace_all` with the non-greedy dotall pattern in `strip_noise`.
Each recursive step removes at least the two tags, so `cs.length` fuel
always suffices. -/
def stripBlocks : Nat → List Char → List Char
  | 0, cs => cs
  | fuel + 1, cs =>
    match findSub openTag cs with
    | none => cs
    | some i =>
      let rest := cs.drop (i + openTag.length)
      match findSub closeTag rest with
      | none => cs
      | some j =>
        cs.take i ++ stripBlocks fuel (rest.drop (j + closeTag.length))

/-- Model of `strip_noise` (events.rs): remove
`<system-reminder>…</system-reminder>` blocks, then trim whitespace. -/
def strip_noise (s : String) : String :=
  String.mk (rustTrimList (stripBlocks s.toList.length s.toList))

/-- UTF-8 byte length of a character list (`str::len` counts bytes). -/
def utf8Len (cs : List Char) : Nat :=
  (cs.map Char.utf8Size).sum

/-- UTF-8 byte length of a string, as Rust `str::len`. -/
def strByteLen (s : String) : Nat := utf8Len s.toList

/-- Model of the byte slice `&s[..n]`: the characters spanning exactly the
first `n` bytes, or `none` when `n` is not a character boundary (in which
case the Rust slice panics). -/
def takeBytes : List Char → Nat → Option (List Char)
  | _, 0 => some []
  | [], _ + 1 => none
  | c :: rest, n + 1 =>
    if c.utf8Size ≤ n + 1 then
      (takeBytes rest (n + 1 - c.utf8Size)).map (c :: ·)
    else none

/-- The byte slice `&s[..n]` on strings; `none` models the boundary panic. -/
def strTakeBytes (s : String) (n : Nat) : Option String :=
  (takeBytes s.toList n).map String.mk

/-- Event type tag (events.rs `EventType`). -/
inductive EventType where
  | system
  | streamEvent
  | assistant
  | user
  | result
  | error
  | unknown
deriving Repr, DecidableEq, Inhabited

/-- A `tool_use` block extracted from an assistant message
(events.rs `ToolUse`). -/
structure ToolUse where
  id : String
  name : String
  input : Json
deriving Inhabited

/-- A `tool_result` block extracted from a user message
(events.rs `ToolResult`). -/
structure ToolResult where
  tool_use_id : String
  content_summary : Option String
  is_error : Bool
deriving Repr, DecidableEq, Inhabited

/-- Token usage statistics (events.rs `TokenUsage`). -/
structure TokenUsage where
  input_tokens : Nat
  output_tokens : Nat
  cache_read_tokens : Nat
  cache_creation_tokens : Nat
deriving Repr, DecidableEq, Inhabited

/-- A parsed Claude NDJSON event (events.rs `ClaudeEvent`). -/
structure ClaudeEvent where
  uuid : Option String
  session_id : Option String
  parent_tool_use_id : Option String
  event_type : Option EventType
  subtype : Option String
  message : Option String
  thinking : Option String
  result : Option String
  model : Option String
  message_id : Option String
  role : Option String
  tool_uses : List ToolUse
  tool_results : List ToolResult
  usage : Option TokenUsage
  cost_usd : Option Int
  total_cost_usd : Option Int
  is_final : Option Bool
  duration_ms : Option Nat
  num_turns : Option Nat
  tool_use_ids : List String
  raw : Json
deriving Inhabited

/-- One content block contribution to the extracted plain text: a `text`
block, stripped; or a `tool_result` block whose scalar string or nested
text-bearing array items are stripped.  Empty cleaned strings are
omitted (events.rs `extract_text_content` inner loop). -/
def textPiecesOfBlock (block : Json) : List String :=
  match (block.get "type").bind Json.as_str with
  | some "text" =>
    match (block.get "text").bind Json.as_str with
    | some text =>
      let cleaned := strip_noise text
      if cleaned ≠ "" then [cleaned] else []
    | none => []
  | some "tool_result" =>
    match block.get "content" with
    | some (.str s) =>
      let cleaned := strip_noise s
      if cleaned ≠ "" then [cleaned] else []
    | some (.arr items) =>
      items.flatMap (fun item =>
        match (item.get "text").bind Json.as_str with
        | some text =>
          let cleaned := strip_noise text
          if cleaned ≠ "" then [cleaned] else []
        | none => [])
    | _ => []
  | _ => []

/-- Model of `extract_text_content` (events.rs): concatenate text and
tool-result block contents under `message.content`, with the fallback to
scalar `message` / `content` fields. -/
def extract_text_content (value : Json) : Option String :=
  let fallback :=
    ((value.get "message").bind Json.as_str |>.map strip_noise
      |>.filter (· ≠ "")).orElse
      (fun _ => (value.get "content").bind Json.as_str |>.map strip_noise
        |>.filter (· ≠ ""))
  match value.get "message" with
  | some message =>
    match (message.get "content").bind Json.as_array with
    | some content =>
      let texts := content.flatMap textPiecesOfBlock
      if texts ≠ [] then some (String.intercalate "\n" texts) else fallback
    | none => fallback
  | none => fallback

/-- Model of `extract_thinking` (events.rs): gather non-empty `thinking`
block texts (unstripped) and join them with a blank line. -/
def extract_thinking (value : Json) : Option String :=
  match value.get "message" with
  | some message =>
    match (message.get "content").bind Json.as_array with
    | some content =>
      let pieces := content.flatMap (fun block =>
        if (block.get "type").bind Json.as_str = some "thinking" then
          match (block.get "thinking").bind Json.as_str with
          | some text => if text ≠ "" then [text] else []
          | none => []
        else [])
      if pieces ≠ [] then some (String.intercalate "\n\n" pieces) else none
    | none => none
  | none => none

/-- Model of `extract_tool_uses` (events.rs): `tool_use` blocks carrying
both an id and a name; malformed blocks are skipped. -/
def extract_tool_uses (value : Json) : List ToolUse :=
  match value.get "message" with
  | some message =>
    match (message.get "content").bind Json.as_array with
    | some content =>
      content.flatMap (fun block =>
        if (block.get "type").bind Json.as_str = some "tool_use" then
          match (block.get "id").bind Json.as_str,
              (block.get "name").bind Json.as_str with
          | some id, some name =>
            [{ id, name, input := (block.get "input").getD Json.null }]
          | _, _ => []
        else [])
    | none => []
  | none => []

/-- Model of `extract_usage` (events.rs): read `message.usage` counters,
each defaulting to zero. -/
def extract_usage (value : Json) : Option TokenUsage := do
  let message ← value.get "message"
  let usage ← message.get "usage"
  pure {
    input_tokens := ((usage.get "input_tokens").bind Json.as_u64).getD 0
    output_tokens := ((usage.get "output_tokens").bind Json.as_u64).getD 0
    cache_read_tokens :=
      ((usage.get "cache_read_input_tokens").bind Json.as_u64).getD 0
    cache_creation_tokens :=
      ((usage.get "cache_creation_input_tokens").bind Json.as_u64).getD 0 }

/-- Scalar branch of the tool-result summary (events.rs
`extract_tool_results`, `Some(Value::String(s))` arm).  The outer `none`
models the Rust panic of the byte slice `&cleaned[..200]` when byte 200
is not a character boundary; `str::len` counts bytes, so the cap is a
byte cap. -/
def scalarSummary (s : String) : Option (Option String) :=
  let cleaned := strip_noise s
  if strByteLen cleaned > 200 then
    (strTakeBytes cleaned 200).map (fun p => some (p ++ "..."))
  else if cleaned ≠ "" then some (some cleaned)
  else some none

/-- Array branch closure of the tool-result summary (events.rs): cap the
cleaned first text at 200 bytes; no emptiness filtering here.  `none`
models the same slice panic. -/
def cappedSummary (s : String) : Option String :=
  let cleaned := strip_noise s
  if strByteLen cleaned > 200 then
    (strTakeBytes cleaned 200).map (· ++ "...")
  else some cleaned

/-- Summary of a `tool_result` block content field: scalar strings are
stripped and capped (with emptiness filtering); for arrays the first
text-bearing item is stripped and capped.  Other shapes yield no
summary.  `none` models a slice panic. -/
def contentSummaryOf : Option Json → Option (Option String)
  | some (.str s) => scalarSummary s
  | some (.arr items) =>
    match items.findSome? (fun item => (item.get "text").bind Json.as_str) with
    | some s => (cappedSummary s).map some
    | none => some none
  | _ => some none

/-- Collect `tool_result` blocks into `ToolResult` records, propagating a
slice panic as `none` (events.rs `extract_tool_results` loop body). -/
def collectToolResults : List Json → Option (List ToolResult)
  | [] => some []
  | block :: rest =>
    if (block.get "type").bind Json.as_str = some "tool_result" then
      match (block.get "tool_use_id").bind Json.as_str with
      | some tid =>
        match contentSummaryOf (block.get "content") with
        | none => none
        | some cs =>
          (collectToolResults rest).map
            (fun tl =>
              { tool_use_id := tid, content_summary := cs,
                is_error := ((block.get "is_error").bind Json.as_bool).getD false
                : ToolResult } :: tl)
      | none => collectToolResults rest
    else collectToolResults rest

/-- Model of `extract_tool_results` (events.rs).  `none` models the byte
slice panic inside the summary computation. -/
def extract_tool_results (value : Json) : Option (List ToolResult) :=
  match value.get "message" with
  | some message =>
    match (message.get "content").bind Json.as_array with
    | some content => collectToolResults content
    | none => some []
  | none => some []

/-- The type-tag match of `ClaudeEvent::parse`: recognized tags map to
their variants, everything else to the catch-all `unknown`. -/
def eventTypeOfTag (s : String) : EventType :=
  match s with
  | "system" => .system
  | "stream_event" => .streamEvent
  | "assistant" => .assistant
  | "user" => .user
  | "result" => .result
  | "error" => .error
  | _ => .unknown

/-- Model of `ClaudeEvent::parse` after the `serde_json::from_str` step:
full field extraction from the parsed JSON value.  The result is `none`
only when the tool-result summary computation panics (byte slice off a
character boundary); the empty-line / unparsable-line cases of the Rust
function live one level up in `parseLine`. -/
def ClaudeEvent.parse (value : Json) : Option ClaudeEvent := do
  let msg_obj := value.get "message"
  let tool_uses := extract_tool_uses value
  let tool_results ← extract_tool_results value
  pure {
    uuid := value.getStr "uuid"
    session_id :=
      (value.getStr "session_id").orElse (fun _ => value.getStr "sessionId")
    parent_tool_use_id := value.getStr "parent_tool_use_id"
    event_type := ((value.get "type").bind Json.as_str).map eventTypeOfTag
    subtype := value.getStr "subtype"
    message := extract_text_content value
    thinking := extract_thinking value
    result := value.getStr "result"
    model := msg_obj.bind (fun m => m.getStr "model")
    message_id := msg_obj.bind (fun m => m.getStr "id")
    role := msg_obj.bind (fun m => m.getStr "role")
    tool_uses := tool_uses
    tool_results := tool_results
    usage := extract_usage value
    cost_usd := (value.get "cost_usd").bind Json.as_f64
    total_cost_usd := (value.get "total_cost_usd").bind Json.as_f64
    is_final :=
      ((value.get "is_final").bind Json.as_bool).orElse
        (fun _ => (value.get "is_error").bind Json.as_bool)
    duration_ms := (value.get "duration_ms").bind Json.as_u64
    num_turns := ((value.get "num_turns").bind Json.as_u64).map (· % 2 ^ 32)
    tool_use_ids := tool_uses.map ToolUse.id
    raw := value }

/-- One input line after the `serde_json::from_str(line).ok()?` step:
`none` is an empty or unparsable line, `some v` a parsed JSON value. -/
def parseLine (line : Option Json) : Option ClaudeEvent :=
  line.bind ClaudeEvent.parse

/-- Model of `ClaudeEvent::type_label`. -/
def ClaudeEvent.type_label (ev : ClaudeEvent) : String :=
  match ev.event_type with
  | some .system => "system"
  | some .streamEvent => "stream_event"
  | some .assistant => "assistant"
  | some .user => "user"
  | some .result => "result"
  | some .error => "error"
  | some .unknown => "unknown"
  | none => "unknown"

/-- Property value of a graph entity (manifoldb `Value`).  The Rust code
stores collection fields as JSON-string blobs via `serde_json::to_string`;
those lossless blobs are modeled by dedicated constructors carrying the
collection itself (serde round-trips `Vec<String>` and the tool structs
exactly), and the f64 variant carries the integral model of the number. -/
inductive PropVal where
  | pStr (s : String)
  | pInt (i : Int)
  | pFloat (i : Int)
  | pBool (b : Bool)
  | pStrList (xs : List String)
  | pToolUses (xs : List ToolUse)
  | pToolResults (xs : List ToolResult)
  | pJson (j : Json)
deriving Inhabited

/-- A persisted graph node (manifoldb `Entity`): id, labels, properties. -/
structure GraphEntity where
  id : Nat
  labels : List String
  props : List (String × PropVal)
deriving Inhabited

/-- A persisted directed typed edge (manifoldb `Edge`). -/
structure GraphEdge where
  id : Nat
  source : Nat
  target : Nat
  edge_type : String
deriving Repr, DecidableEq, Inhabited

/-- Insert into an association list with overwrite (HashMap `insert`). -/
def assocInsert (l : List (String × Nat)) (k : String) (v : Nat) :
    List (String × Nat) :=
  (k, v) :: l.filter (fun kv => kv.1 ≠ k)

/-- Lookup in an association list (HashMap `get`). -/
def assocLookup (l : List (String × Nat)) (k : String) : Option Nat :=
  (l.find? (fun kv => kv.1 = k)).map (fun kv => kv.2)

/-- The full store state of `GraphDatabase`: the shared id generator (one
`IdGenerator` allocates both entity and edge ids), the persisted entity
and edge tables, and the two in-memory indices. -/
structure GraphState where
  nextId : Nat
  entities : List GraphEntity
  edges : List GraphEdge
  tool_use_index : List (String × Nat)
  uuid_index : List (String × Nat)
deriving Inhabited

/-- The freshly opened empty store. -/
def GraphState.empty : GraphState :=
  { nextId := 1, entities := [], edges := [],
    tool_use_index := [], uuid_index := [] }

/-- Optional property insertion, mirroring the `if let Some(x) = …` guards
around `with_property` in `store_event`. -/
def optProp (k : String) (v : Option PropVal) : List (String × PropVal) :=
  match v with
  | some pv => [(k, pv)]
  | none => []

/-- The property map flattened from one event (graph.rs `store_event`
entity construction closure), in the order of the `with_property` calls. -/
def mkEventProps (ev : ClaudeEvent) (fork_id : Option String) :
    List (String × PropVal) :=
  optProp "fork_id" (fork_id.map .pStr) ++
  optProp "uuid" (ev.uuid.map .pStr) ++
  optProp "session_id" (ev.session_id.map .pStr) ++
  optProp "parent_tool_use_id" (ev.parent_tool_use_id.map .pStr) ++
  [("type", .pStr ev.type_label)] ++
  optProp "subtype" (ev.subtype.map .pStr) ++
  optProp "message" (ev.message.map .pStr) ++
  optProp "thinking" (ev.thinking.map .pStr) ++
  optProp "result" (ev.result.map .pStr) ++
  optProp "model" (ev.model.map .pStr) ++
  optProp "message_id" (ev.message_id.map .pStr) ++
  optProp "role" (ev.role.map .pStr) ++
  (if ev.tool_uses.isEmpty then []
    else [("tool_uses", .pToolUses ev.tool_uses)]) ++
  (if ev.tool_results.isEmpty then []
    else [("tool_results", .pToolResults ev.tool_results)]) ++
  optProp "cost_usd" (ev.cost_usd.map .pFloat) ++
  optProp "total_cost_usd" (ev.total_cost_usd.map .pFloat) ++
  optProp "duration_ms" (ev.duration_ms.map (fun n => .pInt n)) ++
  optProp "num_turns" (ev.num_turns.map (fun n => .pInt n)) ++
  (if ev.tool_use_ids.isEmpty then []
    else [("tool_use_ids", .pStrList ev.tool_use_ids)]) ++
  [("raw", .pJson ev.raw)]

/-- Register every declared tool-use id in the invocation index, mapping
it to the new entity (graph.rs `store_event`, index update loop). -/
def insertToolIds (idx : List (String × Nat)) (ids : List String)
    (eid : Nat) : List (String × Nat) :=
  ids.foldl (fun acc tid => assocInsert acc tid eid) idx

/-- RESPONDS_TO edges for the tool results of one event: one edge per
result whose referenced invocation id is present in the (already
updated) invocation index, with edge ids drawn from the shared
generator (graph.rs `store_event`, second edge loop). -/
def respondsToEdges (idx : List (String × Nat)) (src : Nat) :
    Nat → List ToolResult → List GraphEdge × Nat
  | gen, [] => ([], gen)
  | gen, tr :: rest =>
    match assocLookup idx tr.tool_use_id with
    | some target =>
      let (es, gen1) := respondsToEdges idx src (gen + 1) rest
      ({ id := gen, source := src, target := target,
         edge_type := "RESPONDS_TO" } :: es, gen1)
    | none => respondsToEdges idx src gen rest

/-- CHILD_OF edge creation of `store_event` (graph.rs): when the
parent-link key is set and already present in the (updated) invocation
index, one CHILD_OF edge from the new entity to the indexed ancestor;
otherwise no edge and no error. -/
def parentEdgeOf (idx : List (String × Nat)) (eid gen : Nat) :
    Option String → List GraphEdge × Nat
  | some p =>
    match assocLookup idx p with
    | some parent =>
      ([{ id := gen, source := eid, target := parent,
          edge_type := "CHILD_OF" }], gen + 1)
    | none => ([], gen)
  | none => ([], gen)

/-- The uuid index update of `store_event`. -/
def uuidIndexAfter (idx : List (String × Nat)) (uuid : Option String)
    (eid : Nat) : List (String × Nat) :=
  match uuid with
  | some u => assocInsert idx u eid
  | none => idx

/-- Model of `GraphDatabase::store_event` on the success path: create the
Event entity, update both indices, add the CHILD_OF edge when the
parent-link key is already indexed (silently skip otherwise), add the
RESPONDS_TO edges, and commit everything.  Returns the new state and the
new entity id. -/
def store_event (s : GraphState) (ev : ClaudeEvent)
    (fork_id : Option String) : GraphState × Nat :=
  let eid := s.nextId
  let ent : GraphEntity :=
    { id := eid, labels := ["Event"], props := mkEventProps ev fork_id }
  let toolIdx := insertToolIds s.tool_use_index ev.tool_use_ids eid
  let pe := parentEdgeOf toolIdx eid (eid + 1) ev.parent_tool_use_id
  let re := respondsToEdges toolIdx eid pe.2 ev.tool_results
  ({ nextId := re.2,
     entities := s.entities ++ [ent],
     edges := s.edges ++ pe.1 ++ re.1,
     tool_use_index := toolIdx,
     uuid_index := uuidIndexAfter s.uuid_index ev.uuid eid }, eid)

/-- Model of `GraphDatabase::store_event` when the write transaction
fails at commit: the staged entity and edges are rolled back with the
transaction, but the in-memory index insertions (made before `commit`)
and the id-generator advancement are not undone — the function returns
the error after having mutated `self`. -/
def storeEventFailedCommit (s : GraphState) (ev : ClaudeEvent)
    (fork_id : Option String) : GraphState :=
  let committed := (store_event s ev fork_id).1
  { nextId := committed.nextId,
    entities := s.entities,
    edges := s.edges,
    tool_use_index := committed.tool_use_index,
    uuid_index := committed.uuid_index }

/-- Model of `GraphDatabase::get_event_by_uuid`: consult the uuid index,
then fetch the entity from the node table. -/
def get_event_by_uuid (s : GraphState) (uuid : String) :
    Option GraphEntity :=
  (assocLookup s.uuid_index uuid).bind
    (fun eid => s.entities.find? (fun e => e.id = eid))

/-- Property lookup on an entity property map. -/
def propLookup (props : List (String × PropVal)) (k : String) :
    Option PropVal :=
  (props.find? (fun kv => kv.1 = k)).map (fun kv => kv.2)

/-- Model of `GraphDatabase::build_indexes`: scan every Event entity,
indexing its `uuid` property and each of its declared `tool_use_ids`
(the decoded JSON-string blob). -/
def build_indexes (entities : List GraphEntity) :
    List (String × Nat) × List (String × Nat) :=
  entities.foldl
    (fun acc e =>
      if "Event" ∈ e.labels then
        let uIdx :=
          match propLookup e.props "uuid" with
          | some (.pStr u) => assocInsert acc.2 u e.id
          | _ => acc.2
        let tIdx :=
          match propLookup e.props "tool_use_ids" with
          | some (.pStrList ids) => insertToolIds acc.1 ids e.id
          | _ => acc.1
        (tIdx, uIdx)
      else acc)
    ([], [])

/-- Modelled from the spec: the id generator state after reopening a
store on persisted data.  The generator itself (`IdGenerator` /
`NodeStore::create` id allocation) lives in the external manifoldb
crates, not under src/; the spec requires a monotonically increasing
generator whose ids are never reused and never zero, also across closing
and reopening on the same data, with an append-only table keyed by a
monotonically increasing id — so the resumed generator starts strictly
above every persisted entity and edge id, and at 1 on an empty store. -/
def resumedNextId (entities : List GraphEntity) (edges : List GraphEdge) :
    Nat :=
  (entities.map GraphEntity.id ++ edges.map GraphEdge.id).foldl max 0 + 1

/-- Model of `GraphDatabase::open_at` on already-persisted data: rebuild
both indices by scanning the entity table and resume the id generator
(see `resumedNextId` for the spec-modelled generator part). -/
def open_at (entities : List GraphEntity) (edges : List GraphEdge) :
    GraphState :=
  let idx := build_indexes entities
  { nextId := resumedNextId entities edges,
    entities := entities,
    edges := edges,
    tool_use_index := idx.1,
    uuid_index := idx.2 }

/-- Well-formedness of a store state: the generator is positive and
strictly dominates every id it has ever handed out — entity ids, edge
ids, and the entity ids referenced by edges and by both indices. -/
def wfState (s : GraphState) : Prop :=
  0 < s.nextId ∧
  (∀ e ∈ s.entities, e.id < s.nextId) ∧
  (∀ ed ∈ s.edges,
    ed.id < s.nextId ∧ ed.source < s.nextId ∧ ed.target < s.nextId) ∧
  (∀ kv ∈ s.tool_use_index, kv.2 < s.nextId) ∧
  (∀ kv ∈ s.uuid_index, kv.2 < s.nextId)

instance (s : GraphState) : Decidable (wfState s) := by
  unfold wfState
  infer_instance

/-- Batch ingestion loop of `ingest_events` (server/mod.rs): parse each
line, store the parsed events, count stored events and errors, and keep
going after every failure.  `storeFails` is the storage-error oracle:
it marks the events whose `store_event` call returns `Err` (such a call
still leaves its pre-commit index mutations behind, per
`storeEventFailedCommit`). -/
def ingestLoop (storeFails : ClaudeEvent → Bool) (fork_id : Option String)
    (st : GraphState) :
    List (Option Json) → GraphState × Nat × Nat
  | [] => (st, 0, 0)
  | line :: rest =>
    match parseLine line with
    | none =>
      let out := ingestLoop storeFails fork_id st rest
      (out.1, out.2.1, out.2.2 + 1)
    | some ev =>
      if storeFails ev then
        let st1 := storeEventFailedCommit st ev fork_id
        let out := ingestLoop storeFails fork_id st1 rest
        (out.1, out.2.1, out.2.2 + 1)
      else
        let st1 := (store_event st ev fork_id).1
        let out := ingestLoop storeFails fork_id st1 rest
        (out.1, out.2.1 + 1, out.2.2)

/-- Model of the `ingest_events` handler body (server/mod.rs): fold the
batch through the store, returning the final state with the
`IngestResponse` counters `(stored, errors)`. -/
def ingest_events (s : GraphState) (lines : List (Option Json))
    (storeFails : ClaudeEvent → Bool) (fork_id : Option String) :
    GraphState × Nat × Nat :=
  ingestLoop storeFails fork_id s lines

/-- Result of a completed process (spawn.rs `ProcessResult`).  The exit
status is modeled by its raw value: 0 is the successful status, any
other value an unsuccessful one. -/
structure ProcessResult where
  status : Nat
  stdout : List String
  stderr : List String
  timed_out : Bool
deriving Repr, DecidableEq, Inhabited

/-- Model of `ProcessResult::success`:
`self.status.success() && !self.timed_out`. -/
def ProcessResult.success (r : ProcessResult) : Bool :=
  r.status == 0 && !r.timed_out

/-- Model of the result assembly at the end of `spawn_process`
(spawn.rs): `timed_out` is set exactly when a timeout was configured and
the output-collection future did not finish within it (in which case the
process is killed and whatever lines were collected are kept). -/
def spawnProcessResult (timeoutConfigured collectFinished : Bool)
    (status : Nat) (outLines errLines : List String) : ProcessResult :=
  { status := status, stdout := outLines, stderr := errLines,
    timed_out := timeoutConfigured && !collectFinished }

/-- Model of `<ExitStatus as ExitStatusExt>::default()` (pool.rs): the
raw status 1, the non-zero surrogate used for synthetic failures. -/
def exitStatusDefault : Nat := 1

/-- Model of the completion step of the pool task (pool.rs `spawn`,
`match run_process_internal(...)`): a successful run resolves the
completion future with its result, a failed run (spawn failure
included) resolves it with the synthetic failed result carrying the
error text as the sole stderr line. -/
def poolCompletionResult : Except String ProcessResult → ProcessResult
  | .ok r => r
  | .error e =>
    { status := exitStatusDefault, stdout := [], stderr := [e],
      timed_out := false }

/-- Abstract pool state for the concurrency ceiling: how many spawned
tasks are waiting on the semaphore and how many hold a permit (are
running). -/
structure PoolState where
  waiting : Nat
  running : Nat
deriving Repr, DecidableEq, Inhabited

/-- Transition relation of the pool with concurrency limit `N`
(pool.rs `ProcessPool`): `spawn` enqueues a task; a queued task starts
only by acquiring one of the `N` semaphore permits
(`semaphore.acquire().await` suspends while all permits are held, i.e.
while `running = N`); a running task releases its permit exactly when it
completes (the permit is bound for the whole task body). -/
inductive PoolStep (N : Nat) : PoolState → PoolState → Prop
  | spawnTask (st : PoolState) :
      PoolStep N st { st with waiting := st.waiting + 1 }
  | acquirePermit (st : PoolState) (hw : 0 < st.waiting)
      (hr : st.running < N) :
      PoolStep N st { waiting := st.waiting - 1, running := st.running + 1 }
  | completeTask (st : PoolState) (hr : 0 < st.running) :
      PoolStep N st { st with running := st.running - 1 }

/-- The pool starts with no tasks. -/
def poolInit : PoolState := { waiting := 0, running := 0 }

/-- States the pool can reach from its initial state. -/
def PoolReachable (N : Nat) (st : PoolState) : Prop :=
  Relation.ReflTransGen (PoolStep N) poolInit st

/-! Concrete inputs used by the witness and counterexample theorems. -/

/-- An event record with every optional field absent. -/
def baseEvent : ClaudeEvent :=
  { uuid := none, session_id := none, parent_tool_use_id := none,
    event_type := none, subtype := none, message := none, thinking := none,
    result := none, model := none, message_id := none, role := none,
    tool_uses := [], tool_results := [], usage := none, cost_usd := none,
    total_cost_usd := none, is_final := none, duration_ms := none,
    num_turns := none, tool_use_ids := [], raw := Json.null }

/-- Event A of the spec example: an assistant message declaring the tool
invocation id t1. -/
def evA1 : ClaudeEvent :=
  { baseEvent with
    uuid := some "u1", event_type := some .assistant,
    role := some "assistant",
    tool_uses := [{ id := "t1", name := "bash", input := Json.null }],
    tool_use_ids := ["t1"] }

/-- Event B of the spec example: a user event carrying parent-link key
t1. -/
def evB1 : ClaudeEvent :=
  { baseEvent with
    uuid := some "u2", event_type := some .user,
    parent_tool_use_id := some "t1" }

/-- Event used by the atomicity counterexample: carries a uuid and
declares one invocation id. -/
def evC2a : ClaudeEvent :=
  { baseEvent with
    uuid := some "ua", event_type := some .assistant,
    tool_uses := [{ id := "ta", name := "bash", input := Json.null }],
    tool_use_ids := ["ta"] }

/-- Later event whose parent-link key references the invocation id of
the failed store above. -/
def evC2b : ClaudeEvent :=
  { baseEvent with
    uuid := some "ub", event_type := some .user,
    parent_tool_use_id := some "ta" }

/-- An input value whose type tag is unrecognized but whose message
payload carries an extractable text block. -/
def jUnknownWithText : Json :=
  .obj [("type", .str "bogus"),
    ("message", .obj [("role", .str "assistant"),
      ("content", .arr [.obj [("type", .str "text"), ("text", .str "hi")]])])]

/-- 250 two-byte characters: 250 characters, 500 UTF-8 bytes. -/
def s250 : String := String.mk (List.replicate 250 'é')

/-- 201 ASCII characters, for the truncation witness. -/
def a201 : String := String.mk (List.replicate 201 'a')

/-- The 200-character ASCII truncation of `a201`. -/
def a200 : String := String.mk (List.replicate 200 'a')

/-- 67 three-byte characters: 201 UTF-8 bytes, and byte 200 falls inside
the final character. -/
def e67 : String := String.mk (List.replicate 67 '€')

/-- A valid assistant event line with the given uuid. -/
def mkLine (u : String) : Option Json :=
  some (.obj [("type", .str "assistant"), ("uuid", .str u),
    ("session_id", .str "sess-1")])

/-- The five-line ingestion batch: four valid events and one malformed
line (a line `serde_json::from_str` rejects). -/
def batch5 : List (Option Json) :=
  [mkLine "u1", mkLine "u2", none, mkLine "u3", mkLine "u4"]

/-- A user event line whose tool-result content is `e67`: parsing it
reaches the byte slice `&cleaned[..200]` off a character boundary. -/
def jPanic : Json :=
  .obj [("type", .str "user"), ("uuid", .str "u9"),
    ("message", .obj [("role", .str "user"),
      ("content", .arr [.obj [("type", .str "tool_result"),
        ("tool_use_id", .str "t9"), ("content", .str e67)]])])]

/-- Replace the type tag of a JSON object by the string `t` (analysis
helper for stating that extraction does not depend on the tag). -/
def setTypeTag (j : Json) (t : String) : Json :=
  match j with
  | .obj kvs =>
    .obj (("type", Json.str t) :: kvs.filter (fun kv => kv.1 ≠ "type"))
  | other => other

/-! Helper lemmas about the association-list indices. -/

theorem find_filter_ne {β : Type} (l : List (String × β)) (k k2 : String)
    (h : k2 ≠ k) :
    (l.filter (fun kv => kv.1 ≠ k)).find? (fun kv => kv.1 = k2) =
      l.find? (fun kv => kv.1 = k2) := by
  rw [List.find?_filter]
  have hpred : (fun (a : String × β) =>
      decide (decide (a.1 ≠ k) = true ∧ decide (a.1 = k2) = true)) =
      (fun (a : String × β) => decide (a.1 = k2)) := by
    funext a
    by_cases ha : a.1 = k2
    · have hak : ¬ (a.1 = k) := fun hc => h (by rw [← ha, hc])
      simp [ha, hak, h]
    · simp [ha]
  rw [hpred]

theorem lookup_assocInsert (l : List (String × Nat)) (k k2 : String)
    (v : Nat) :
    assocLookup (assocInsert l k v) k2 =
      if k2 = k then some v else assocLookup l k2 := by
  by_cases h : k2 = k
  · subst h
    simp [assocLookup, assocInsert, List.find?_cons]
  · have hne : ¬ (k = k2) := fun hc => h hc.symm
    unfold assocLookup assocInsert
    rw [List.find?_cons_of_neg _ (by simpa using hne),
      find_filter_ne l k k2 h, if_neg h]

theorem lookup_insertToolIds (idx : List (String × Nat))
    (ids : List String) (eid : Nat) (k : String) :
    assocLookup (insertToolIds idx ids eid) k =
      if k ∈ ids then some eid else assocLookup idx k := by
  induction ids generalizing idx with
  | nil => simp [insertToolIds]
  | cons i rest ih =>
    have hstep : insertToolIds idx (i :: rest) eid =
        insertToolIds (assocInsert idx i eid) rest eid := rfl
    rw [hstep, ih]
    by_cases hmem : k ∈ rest
    · simp [hmem, List.mem_cons]
    · by_cases hk : k = i
      · simp [hmem, hk, lookup_assocInsert]
      · simp [hmem, hk, lookup_assocInsert, List.mem_cons]

theorem lookup_mem (l : List (String × Nat)) (k : String) (v : Nat)
    (h : assocLookup l k = some v) : ∃ kv ∈ l, kv.2 = v := by
  unfold assocLookup at h
  cases hf : l.find? (fun kv => kv.1 = k) with
  | none => rw [hf] at h; simp at h
  | some kv =>
    rw [hf] at h
    simp at h
    exact ⟨kv, List.mem_of_find?_eq_some hf, h⟩

theorem assocInsert_vals_lt (l : List (String × Nat)) (k : String)
    (v b : Nat) (hl : ∀ kv ∈ l, kv.2 < b) (hv : v < b) :
    ∀ kv ∈ assocInsert l k v, kv.2 < b := by
  intro kv hkv
  unfold assocInsert at hkv
  rcases List.mem_cons.mp hkv with hkv | hkv
  · rw [hkv]; exact hv
  · exact hl kv (List.mem_of_mem_filter hkv)

theorem insertToolIds_vals_lt (idx : List (String × Nat))
    (ids : List String) (eid b : Nat) (hl : ∀ kv ∈ idx, kv.2 < b)
    (he : eid < b) :
    ∀ kv ∈ insertToolIds idx ids eid, kv.2 < b := by
  induction ids generalizing idx with
  | nil => exact hl
  | cons i rest ih =>
    exact ih (assocInsert idx i eid)
      (assocInsert_vals_lt idx i eid b hl he)

theorem respondsToEdges_gen_le (idx : List (String × Nat)) (src : Nat)
    (gen : Nat) (trs : List ToolResult) :
    gen ≤ (respondsToEdges idx src gen trs).2 := by
  induction trs generalizing gen with
  | nil => simp [respondsToEdges]
  | cons tr rest ih =>
    unfold respondsToEdges
    cases hl : assocLookup idx tr.tool_use_id with
    | none => exact ih gen
    | some target =>
      simp only
      exact Nat.le_trans (Nat.le_succ gen) (ih (gen + 1))

theorem respondsToEdges_mem (idx : List (String × Nat)) (src : Nat)
    (gen : Nat) (trs : List ToolResult) :
    ∀ ed ∈ (respondsToEdges idx src gen trs).1,
      ed.source = src ∧ ed.edge_type = "RESPONDS_TO" ∧
      gen ≤ ed.id ∧ ed.id < (respondsToEdges idx src gen trs).2 ∧
      ∃ kv ∈ idx, kv.2 = ed.target := by
  induction trs generalizing gen with
  | nil => intro ed hed; simp [respondsToEdges] at hed
  | cons tr rest ih =>
    intro ed hed
    unfold respondsToEdges at hed ⊢
    cases hl : assocLookup idx tr.tool_use_id with
    | none =>
      rw [hl] at hed
      exact ih gen ed hed
    | some target =>
      rw [hl] at hed
      simp only [List.mem_cons] at hed
      rcases hed with hed | hed
      · subst hed
        refine ⟨rfl, rfl, Nat.le_refl gen, ?_, lookup_mem idx _ target hl⟩
        simp only
        exact Nat.lt_of_lt_of_le (Nat.lt_succ_self gen)
          (respondsToEdges_gen_le idx src (gen + 1) rest)
      · obtain ⟨h1, h2, h3, h4, h5⟩ := ih (gen + 1) ed hed
        exact ⟨h1, h2, Nat.le_trans (Nat.le_succ gen) h3, h4, h5⟩

/-- The new entity id returned by `store_event` is the generator value. -/
theorem store_event_ret (s : GraphState) (ev : ClaudeEvent)
    (f : Option String) : (store_event s ev f).2 = s.nextId := rfl

/-- The invocation index after `store_event` is the old one with every
declared invocation id of the event pointing at the new entity. -/
theorem store_event_tool_index (s : GraphState) (ev : ClaudeEvent)
    (f : Option String) :
    (store_event s ev f).1.tool_use_index =
      insertToolIds s.tool_use_index ev.tool_use_ids s.nextId := rfl

/-- The entity table after `store_event` is the old one with the new
Event entity appended. -/
theorem store_event_entities (s : GraphState) (ev : ClaudeEvent)
    (f : Option String) :
    (store_event s ev f).1.entities =
      s.entities ++
        [{ id := s.nextId, labels := ["Event"],
           props := mkEventProps ev f }] := rfl

theorem parentEdgeOf_gen_le (idx : List (String × Nat)) (eid gen : Nat)
    (pk : Option String) :
    gen ≤ (parentEdgeOf idx eid gen pk).2 := by
  cases pk with
  | none => exact Nat.le_refl gen
  | some p =>
    cases hl : assocLookup idx p with
    | none => simp [parentEdgeOf, hl]
    | some parent => simp [parentEdgeOf, hl]

theorem parentEdgeOf_mem (idx : List (String × Nat)) (eid gen : Nat)
    (pk : Option String) :
    ∀ ed ∈ (parentEdgeOf idx eid gen pk).1,
      ed.source = eid ∧ ed.edge_type = "CHILD_OF" ∧ ed.id = gen ∧
      (parentEdgeOf idx eid gen pk).2 = gen + 1 ∧
      ∃ kv ∈ idx, kv.2 = ed.target := by
  intro ed hed
  cases pk with
  | none => simp [parentEdgeOf] at hed
  | some p =>
    cases hl : assocLookup idx p with
    | none => simp [parentEdgeOf, hl] at hed
    | some parent =>
      simp only [parentEdgeOf, hl, List.mem_singleton] at hed
      subst hed
      refine ⟨rfl, rfl, rfl, ?_, lookup_mem idx p parent hl⟩
      simp [parentEdgeOf, hl]

theorem parentEdgeOf_hit (idx : List (String × Nat)) (eid gen : Nat)
    (p : String) (parent : Nat) (hl : assocLookup idx p = some parent) :
    parentEdgeOf idx eid gen (some p) =
      ([{ id := gen, source := eid, target := parent,
          edge_type := "CHILD_OF" }], gen + 1) := by
  simp [parentEdgeOf, hl]

/-- The generator strictly advances across `store_event`. -/
theorem store_event_nextId_gt (s : GraphState) (ev : ClaudeEvent)
    (f : Option String) : s.nextId < (store_event s ev f).1.nextId := by
  have h1 : s.nextId + 1 ≤
      (parentEdgeOf (insertToolIds s.tool_use_index ev.tool_use_ids
        s.nextId) s.nextId (s.nextId + 1) ev.parent_tool_use_id).2 :=
    parentEdgeOf_gen_le _ _ _ _
  have h2 := respondsToEdges_gen_le
    (insertToolIds s.tool_use_index ev.tool_use_ids s.nextId) s.nextId
    ((parentEdgeOf (insertToolIds s.tool_use_index ev.tool_use_ids
      s.nextId) s.nextId (s.nextId + 1) ev.parent_tool_use_id).2)
    ev.tool_results
  exact Nat.lt_of_lt_of_le (Nat.lt_succ_self _) (Nat.le_trans h1 h2)

/-- Decomposition of the edge table after `store_event`. -/
theorem store_event_edges (s : GraphState) (ev : ClaudeEvent)
    (f : Option String) :
    (store_event s ev f).1.edges =
      s.edges ++
        (parentEdgeOf (insertToolIds s.tool_use_index ev.tool_use_ids
          s.nextId) s.nextId (s.nextId + 1) ev.parent_tool_use_id).1 ++
        (respondsToEdges (insertToolIds s.tool_use_index ev.tool_use_ids
          s.nextId) s.nextId
          ((parentEdgeOf (insertToolIds s.tool_use_index ev.tool_use_ids
            s.nextId) s.nextId (s.nextId + 1) ev.parent_tool_use_id).2)
          ev.tool_results).1 := rfl

/-- Every edge present after `store_event` either was already stored or
originates at the new entity. -/
theorem store_event_edge_src (s : GraphState) (ev : ClaudeEvent)
    (f : Option String) :
    ∀ ed ∈ (store_event s ev f).1.edges,
      ed ∈ s.edges ∨ ed.source = s.nextId := by
  intro ed hed
  rw [store_event_edges] at hed
  simp only [List.mem_append] at hed
  rcases hed with (hed | hed) | hed
  · exact Or.inl hed
  · exact Or.inr (parentEdgeOf_mem _ _ _ _ ed hed).1
  · exact Or.inr (respondsToEdges_mem _ _ _ _ ed hed).1

/-- Lookup in the invocation index after a `store_event`. -/
theorem store_event_lookup (s : GraphState) (ev : ClaudeEvent)
    (f : Option String) (k : String) :
    assocLookup (store_event s ev f).1.tool_use_index k =
      if k ∈ ev.tool_use_ids then some s.nextId
      else assocLookup s.tool_use_index k := by
  rw [store_event_tool_index, lookup_insertToolIds]

/-- When the parent-link key of the stored event is already indexed (and
the event does not redeclare it itself), the CHILD_OF edge to the
indexed ancestor is committed. -/
theorem store_event_child_edge (s : GraphState) (ev : ClaudeEvent)
    (f : Option String) (X : String) (aid : Nat)
    (hp : ev.parent_tool_use_id = some X) (hX : X ∉ ev.tool_use_ids)
    (hidx : assocLookup s.tool_use_index X = some aid) :
    ({ id := s.nextId + 1, source := s.nextId, target := aid,
       edge_type := "CHILD_OF" } : GraphEdge) ∈
      (store_event s ev f).1.edges := by
  rw [store_event_edges]
  have hl : assocLookup (insertToolIds s.tool_use_index ev.tool_use_ids
      s.nextId) X = some aid := by
    rw [lookup_insertToolIds, if_neg hX]
    exact hidx
  rw [hp, parentEdgeOf_hit _ _ _ _ _ hl]
  simp [List.mem_append]

/-- Values of the uuid index after the update step. -/
theorem uuidIndexAfter_vals_lt (idx : List (String × Nat))
    (uuid : Option String) (eid b : Nat) (hl : ∀ kv ∈ idx, kv.2 < b)
    (he : eid < b) : ∀ kv ∈ uuidIndexAfter idx uuid eid, kv.2 < b := by
  cases uuid with
  | none => exact hl
  | some u => exact assocInsert_vals_lt idx u eid b hl he

/-- `store_event` preserves well-formedness of the store. -/
theorem store_event_wf (s : GraphState) (ev : ClaudeEvent)
    (f : Option String) (h : wfState s) :
    wfState (store_event s ev f).1 := by
  obtain ⟨hpos, hent, hedge, htool, huuid⟩ := h
  have hN := store_event_nextId_gt s ev f
  set nid := s.nextId with hnid
  set toolIdx := insertToolIds s.tool_use_index ev.tool_use_ids nid with hti
  set pe := parentEdgeOf toolIdx nid (nid + 1) ev.parent_tool_use_id
    with hpe
  set re := respondsToEdges toolIdx nid pe.2 ev.tool_results with hre
  have hNeq : (store_event s ev f).1.nextId = re.2 := rfl
  have hg1pe : nid + 1 ≤ pe.2 := parentEdgeOf_gen_le _ _ _ _
  have hpere : pe.2 ≤ re.2 := respondsToEdges_gen_le _ _ _ _
  have hg1N : nid + 1 ≤ re.2 := Nat.le_trans hg1pe hpere
  have htoolBound : ∀ kv ∈ toolIdx, kv.2 < nid + 1 :=
    insertToolIds_vals_lt _ _ _ _
      (fun kv hkv => Nat.lt_succ_of_lt (htool kv hkv))
      (Nat.lt_succ_self nid)
  refine ⟨Nat.lt_trans hpos hN, ?_, ?_, ?_, ?_⟩
  · intro e he
    rw [store_event_entities] at he
    rw [hNeq]
    rcases List.mem_append.mp he with he | he
    · exact Nat.lt_trans (hent e he) (hNeq ▸ hN)
    · simp only [List.mem_singleton] at he
      subst he
      exact Nat.lt_of_lt_of_le (Nat.lt_succ_self nid) hg1N
  · intro ed hed
    rw [store_event_edges] at hed
    rw [hNeq]
    have hNgt : nid < re.2 := hNeq ▸ hN
    rcases List.mem_append.mp hed with hed | hed
    · rcases List.mem_append.mp hed with hed | hed
      · obtain ⟨h1, h2, h3⟩ := hedge ed hed
        exact ⟨Nat.lt_trans h1 hNgt, Nat.lt_trans h2 hNgt,
          Nat.lt_trans h3 hNgt⟩
      · obtain ⟨hsrc, _, hid, hpe2, kv, hkv, hkvt⟩ :=
          parentEdgeOf_mem _ _ _ _ ed hed
        refine ⟨?_, ?_, ?_⟩
        · rw [hid]
          have hpe2a : pe.2 = nid + 1 + 1 := hpe2
          exact Nat.lt_of_lt_of_le
            (by rw [hpe2a]; exact Nat.lt_succ_self _) hpere
        · rw [hsrc]; exact hNgt
        · rw [← hkvt]
          exact Nat.lt_of_lt_of_le
            (Nat.lt_of_lt_of_le (htoolBound kv hkv) hg1pe) hpere
    · obtain ⟨hsrc, _, _, hidlt, kv, hkv, hkvt⟩ :=
        respondsToEdges_mem _ _ _ _ ed hed
      refine ⟨hidlt, ?_, ?_⟩
      · rw [hsrc]; exact hNgt
      · rw [← hkvt]
        exact Nat.lt_of_lt_of_le (htoolBound kv hkv) hg1N
  · intro kv hkv
    rw [hNeq]
    exact Nat.lt_of_lt_of_le (htoolBound kv hkv) hg1N
  · intro kv hkv
    rw [hNeq]
    have : ∀ kv ∈ uuidIndexAfter s.uuid_index ev.uuid nid, kv.2 < re.2 :=
      uuidIndexAfter_vals_lt _ _ _ _
        (fun kv2 hkv2 => Nat.lt_trans (huuid kv2 hkv2) (hNeq ▸ hN))
        (hNeq ▸ hN)
    exact this kv hkv

theorem foldl_max_le_init (l : List Nat) (a : Nat) :
    a ≤ l.foldl max a := by
  induction l generalizing a with
  | nil => exact Nat.le_refl a
  | cons x rest ih =>
    exact Nat.le_trans (Nat.le_max_left a x) (ih (max a x))

theorem le_foldl_max (l : List Nat) (a : Nat) :
    ∀ x ∈ l, x ≤ l.foldl max a := by
  induction l generalizing a with
  | nil => intro x hx; simp at hx
  | cons y rest ih =>
    intro x hx
    rcases List.mem_cons.mp hx with hx | hx
    · subst hx
      exact Nat.le_trans (Nat.le_max_right a x)
        (foldl_max_le_init rest (max a x))
    · exact ih (max a y) x hx

theorem build_indexes_step_bound (acc : List (String × Nat) × List (String × Nat))
    (e : GraphEntity) (b : Nat)
    (hacc : (∀ kv ∈ acc.1, kv.2 < b) ∧ (∀ kv ∈ acc.2, kv.2 < b))
    (he : e.id < b) :
    (∀ kv ∈ (if "Event" ∈ e.labels then
        let uIdx :=
          match propLookup e.props "uuid" with
          | some (.pStr u) => assocInsert acc.2 u e.id
          | _ => acc.2
        let tIdx :=
          match propLookup e.props "tool_use_ids" with
          | some (.pStrList ids) => insertToolIds acc.1 ids e.id
          | _ => acc.1
        (tIdx, uIdx)
      else acc).1, kv.2 < b) ∧
    (∀ kv ∈ (if "Event" ∈ e.labels then
        let uIdx :=
          match propLookup e.props "uuid" with
          | some (.pStr u) => assocInsert acc.2 u e.id
          | _ => acc.2
        let tIdx :=
          match propLookup e.props "tool_use_ids" with
          | some (.pStrList ids) => insertToolIds acc.1 ids e.id
          | _ => acc.1
        (tIdx, uIdx)
      else acc).2, kv.2 < b) := by
  by_cases hl : "Event" ∈ e.labels
  · simp only [hl, if_true]
    constructor
    · cases hp : propLookup e.props "tool_use_ids" with
      | none => exact hacc.1
      | some pv =>
        cases pv with
        | pStrList ids => exact insertToolIds_vals_lt _ _ _ _ hacc.1 he
        | pStr v => exact hacc.1
        | pInt v => exact hacc.1
        | pFloat v => exact hacc.1
        | pBool v => exact hacc.1
        | pToolUses v => exact hacc.1
        | pToolResults v => exact hacc.1
        | pJson v => exact hacc.1
    · cases hp : propLookup e.props "uuid" with
      | none => exact hacc.2
      | some pv =>
        cases pv with
        | pStr u => exact assocInsert_vals_lt _ _ _ _ hacc.2 he
        | pInt v => exact hacc.2
        | pFloat v => exact hacc.2
        | pBool v => exact hacc.2
        | pStrList v => exact hacc.2
        | pToolUses v => exact hacc.2
        | pToolResults v => exact hacc.2
        | pJson v => exact hacc.2
  · simp only [hl, if_false]
    exact hacc

theorem build_indexes_vals_lt (entities : List GraphEntity) (b : Nat)
    (h : ∀ e ∈ entities, e.id < b) :
    (∀ kv ∈ (build_indexes entities).1, kv.2 < b) ∧
    (∀ kv ∈ (build_indexes entities).2, kv.2 < b) := by
  unfold build_indexes
  have hgo : ∀ (l : List GraphEntity)
      (acc : List (String × Nat) × List (String × Nat)),
      (∀ e ∈ l, e.id < b) →
      (∀ kv ∈ acc.1, kv.2 < b) → (∀ kv ∈ acc.2, kv.2 < b) →
      (∀ kv ∈ (l.foldl (fun acc e =>
        if "Event" ∈ e.labels then
          let uIdx :=
            match propLookup e.props "uuid" with
            | some (.pStr u) => assocInsert acc.2 u e.id
            | _ => acc.2
          let tIdx :=
            match propLookup e.props "tool_use_ids" with
            | some (.pStrList ids) => insertToolIds acc.1 ids e.id
            | _ => acc.1
          (tIdx, uIdx)
        else acc) acc).1, kv.2 < b) ∧
      (∀ kv ∈ (l.foldl (fun acc e =>
        if "Event" ∈ e.labels then
          let uIdx :=
            match propLookup e.props "uuid" with
            | some (.pStr u) => assocInsert acc.2 u e.id
            | _ => acc.2
          let tIdx :=
            match propLookup e.props "tool_use_ids" with
            | some (.pStrList ids) => insertToolIds acc.1 ids e.id
            | _ => acc.1
          (tIdx, uIdx)
        else acc) acc).2, kv.2 < b) := by
    intro l
    induction l with
    | nil => intro acc _ h1 h2; exact ⟨h1, h2⟩
    | cons e rest ih =>
      intro acc hl h1 h2
      have hstep := build_indexes_step_bound acc e b ⟨h1, h2⟩
        (hl e (List.mem_cons_self e rest))
      exact ih _ (fun e2 he2 => hl e2 (List.mem_cons_of_mem e he2))
        hstep.1 hstep.2
  exact hgo entities ([], []) h (by intro kv hkv; simp at hkv)
    (by intro kv hkv; simp at hkv)

/-- Reopening a store whose edge endpoints reference persisted entities
yields a well-formed state: the resumed generator strictly dominates
every persisted id. -/
theorem open_at_wf (pe : List GraphEntity) (ped : List GraphEdge)
    (hc : ∀ ed ∈ ped, (∃ e ∈ pe, ed.source = e.id) ∧
      (∃ e ∈ pe, ed.target = e.id)) :
    wfState (open_at pe ped) := by
  have hentLe : ∀ e ∈ pe, e.id < resumedNextId pe ped := by
    intro e he
    have : e.id ≤ (pe.map GraphEntity.id ++ ped.map GraphEdge.id).foldl
        max 0 :=
      le_foldl_max _ 0 e.id
        (List.mem_append_left _ (List.mem_map_of_mem GraphEntity.id he))
    exact Nat.lt_succ_of_le this
  have hedLe : ∀ ed ∈ ped, ed.id < resumedNextId pe ped := by
    intro ed hed
    have : ed.id ≤ (pe.map GraphEntity.id ++ ped.map GraphEdge.id).foldl
        max 0 :=
      le_foldl_max _ 0 ed.id
        (List.mem_append_right _ (List.mem_map_of_mem GraphEdge.id hed))
    exact Nat.lt_succ_of_le this
  have hidx := build_indexes_vals_lt pe (resumedNextId pe ped) hentLe
  refine ⟨Nat.succ_pos _, hentLe, ?_, hidx.1, hidx.2⟩
  intro ed hed
  obtain ⟨⟨e1, he1, hs⟩, ⟨e2, he2, ht⟩⟩ := hc ed hed
  exact ⟨hedLe ed hed, hs ▸ hentLe e1 he1, ht ▸ hentLe e2 he2⟩

/-! The claim theorems. -/

/-- C1: for events A and B stored via `store_event` in that order, where
A declares invocation id X and B carries parent-link key X (and does not
redeclare X itself, invocation ids being unique), a CHILD_OF edge from
the entity of B to the entity of A exists after both are stored; and if
B is stored before A, no such CHILD_OF edge exists — the link is missed
silently. -/
theorem child_of_link_invariant (s : GraphState) (A B : ClaudeEvent)
    (X : String) (fA fB : Option String) (hwf : wfState s)
    (hAX : X ∈ A.tool_use_ids) (hBX : B.parent_tool_use_id = some X)
    (hBnotX : X ∉ B.tool_use_ids) :
    (∃ eid : Nat,
      ({ id := eid,
         source := (store_event (store_event s A fA).1 B fB).2,
         target := (store_event s A fA).2,
         edge_type := "CHILD_OF" } : GraphEdge) ∈
        (store_event (store_event s A fA).1 B fB).1.edges) ∧
    (¬ ∃ eid : Nat,
      ({ id := eid,
         source := (store_event s B fB).2,
         target := (store_event (store_event s B fB).1 A fA).2,
         edge_type := "CHILD_OF" } : GraphEdge) ∈
        (store_event (store_event s B fB).1 A fA).1.edges) := by
  constructor
  · have hidx : assocLookup (store_event s A fA).1.tool_use_index X =
        some (store_event s A fA).2 := by
      rw [store_event_lookup, if_pos hAX, store_event_ret]
    have hmem := store_event_child_edge (store_event s A fA).1 B fB X
      (store_event s A fA).2 hBX hBnotX hidx
    exact ⟨(store_event s A fA).1.nextId + 1, hmem⟩
  · rintro ⟨eid, hmem⟩
    have hwf1 : wfState (store_event s B fB).1 := store_event_wf s B fB hwf
    rcases store_event_edge_src (store_event s B fB).1 A fA _ hmem
        with hold | hsrc
    · have hbound := (hwf1.2.2.1 _ hold).2.2
      rw [store_event_ret] at hbound
      exact Nat.lt_irrefl _ hbound
    · rw [store_event_ret] at hsrc
      have hlt := store_event_nextId_gt s B fB
      rw [← hsrc] at hlt
      exact Nat.lt_irrefl _ hlt

/-- Witness for C1 at the spec example: event A declares t1, event B
carries parent-link key t1, both stored into the empty store. -/
theorem child_of_link_invariant_witness :
    wfState GraphState.empty ∧ "t1" ∈ evA1.tool_use_ids ∧
    evB1.parent_tool_use_id = some "t1" ∧ "t1" ∉ evB1.tool_use_ids ∧
    ((∃ eid : Nat,
      ({ id := eid,
         source := (store_event (store_event GraphState.empty evA1 none).1
           evB1 none).2,
         target := (store_event GraphState.empty evA1 none).2,
         edge_type := "CHILD_OF" } : GraphEdge) ∈
        (store_event (store_event GraphState.empty evA1 none).1
          evB1 none).1.edges) ∧
    (¬ ∃ eid : Nat,
      ({ id := eid,
         source := (store_event GraphState.empty evB1 none).2,
         target := (store_event (store_event GraphState.empty evB1 none).1
           evA1 none).2,
         edge_type := "CHILD_OF" } : GraphEdge) ∈
        (store_event (store_event GraphState.empty evB1 none).1
          evA1 none).1.edges)) :=
  ⟨by decide, by decide, by decide, by decide,
    child_of_link_invariant GraphState.empty evA1 evB1 "t1" none none
      (by decide) (by decide) (by decide) (by decide)⟩

/-- C4: every entity created by `store_event` gets a positive id that is
distinct from every previously assigned entity and edge id, the store
stays well formed (so the generator keeps strictly dominating every
assigned id), and reopening a store on persisted data resumes the
generator strictly above every persisted entity and edge id — ids are
never zero and never reused, also across close and reopen. -/
theorem entity_ids_fresh_and_positive (s : GraphState) (ev : ClaudeEvent)
    (f : Option String) (pe : List GraphEntity) (ped : List GraphEdge)
    (hwf : wfState s)
    (hc : ∀ ed ∈ ped, (∃ e ∈ pe, ed.source = e.id) ∧
      (∃ e ∈ pe, ed.target = e.id)) :
    0 < (store_event s ev f).2 ∧
    (∀ e ∈ s.entities, e.id ≠ (store_event s ev f).2) ∧
    (∀ ed ∈ s.edges, ed.id ≠ (store_event s ev f).2) ∧
    wfState (store_event s ev f).1 ∧
    wfState (open_at pe ped) ∧
    (∀ e ∈ pe, e.id < (open_at pe ped).nextId) ∧
    (∀ ed ∈ ped, ed.id < (open_at pe ped).nextId) := by
  obtain ⟨hpos, hent, hedge, htool, huuid⟩ := hwf
  have hwfo := open_at_wf pe ped hc
  refine ⟨?_, ?_, ?_, store_event_wf s ev f
    ⟨hpos, hent, hedge, htool, huuid⟩, hwfo, hwfo.2.1,
    fun ed hed => (hwfo.2.2.1 ed hed).1⟩
  · rw [store_event_ret]; exact hpos
  · intro e he
    rw [store_event_ret]
    exact Nat.ne_of_lt (hent e he)
  · intro ed hed
    rw [store_event_ret]
    exact Nat.ne_of_lt (hedge ed hed).1

/-- Witness for C4: storing an event into the well-formed empty store,
and reopening on a small persisted table. -/
theorem entity_ids_fresh_and_positive_witness :
    wfState GraphState.empty ∧
    (0 < (store_event GraphState.empty evA1 none).2 ∧
    (∀ e ∈ GraphState.empty.entities,
      e.id ≠ (store_event GraphState.empty evA1 none).2) ∧
    (∀ ed ∈ GraphState.empty.edges,
      ed.id ≠ (store_event GraphState.empty evA1 none).2) ∧
    wfState (store_event GraphState.empty evA1 none).1 ∧
    wfState (open_at [{ id := 7, labels := ["Event"], props := [] }] []) ∧
    (∀ e ∈ [{ id := 7, labels := ["Event"], props := [] : GraphEntity }],
      e.id < (open_at [{ id := 7, labels := ["Event"], props := [] }]
        []).nextId) ∧
    (∀ ed ∈ ([] : List GraphEdge),
      ed.id < (open_at [{ id := 7, labels := ["Event"], props := [] }]
        []).nextId)) :=
  ⟨by decide,
    entity_ids_fresh_and_positive GraphState.empty evA1 none
      [{ id := 7, labels := ["Event"], props := [] }] [] (by decide)
      (by intro ed hed; simp at hed)⟩

/-- C2 counterexample: `store_event` is not free of partial state on a
storage failure.  A failed commit on the empty store leaves both
in-memory indices populated while no entity was persisted, and the stale
invocation-index entry is observable to a later call: storing a child
event afterwards creates a CHILD_OF edge whose target id 1 has no entity
in the table. -/
theorem store_event_abort_partial_state_cex :
    assocLookup (storeEventFailedCommit GraphState.empty evC2a
      none).uuid_index "ua" = some 1 ∧
    assocLookup (storeEventFailedCommit GraphState.empty evC2a
      none).tool_use_index "ta" = some 1 ∧
    (storeEventFailedCommit GraphState.empty evC2a none).entities = [] ∧
    ({ id := 3, source := 2, target := 1, edge_type := "CHILD_OF" }
      : GraphEdge) ∈
      (store_event (storeEventFailedCommit GraphState.empty evC2a none)
        evC2b none).1.edges ∧
    (∀ e ∈ (store_event (storeEventFailedCommit GraphState.empty evC2a
      none) evC2b none).1.entities, e.id ≠ 1) := by
  refine ⟨rfl, rfl, rfl, ?_, ?_⟩
  · decide
  · decide

/-- C2 (amended): each `store_event` call is atomic with respect to the
persisted graph — on a commit failure the entity and edge tables are
exactly unchanged, and on success the entity and all resolvable edges
are committed together — but the in-memory index insertions made before
commit and the id-generator advancement survive a failed call. -/
theorem store_event_atomic_persisted_only (s : GraphState)
    (ev : ClaudeEvent) (f : Option String) :
    (storeEventFailedCommit s ev f).entities = s.entities ∧
    (storeEventFailedCommit s ev f).edges = s.edges ∧
    (storeEventFailedCommit s ev f).tool_use_index =
      insertToolIds s.tool_use_index ev.tool_use_ids s.nextId ∧
    (storeEventFailedCommit s ev f).uuid_index =
      uuidIndexAfter s.uuid_index ev.uuid s.nextId ∧
    (storeEventFailedCommit s ev f).nextId = (store_event s ev f).1.nextId ∧
    (store_event s ev f).1.entities =
      s.entities ++ [{ id := s.nextId, labels := ["Event"],
                       props := mkEventProps ev f }] ∧
    (store_event s ev f).1.edges =
      s.edges ++
        (parentEdgeOf (insertToolIds s.tool_use_index ev.tool_use_ids
          s.nextId) s.nextId (s.nextId + 1) ev.parent_tool_use_id).1 ++
        (respondsToEdges (insertToolIds s.tool_use_index ev.tool_use_ids
          s.nextId) s.nextId
          ((parentEdgeOf (insertToolIds s.tool_use_index ev.tool_use_ids
            s.nextId) s.nextId (s.nextId + 1) ev.parent_tool_use_id).2)
          ev.tool_results).1 :=
  ⟨rfl, rfl, rfl, rfl, rfl, rfl, rfl⟩

theorem get_setTypeTag (kvs : List (String × Json)) (t k : String)
    (hk : k ≠ "type") :
    (setTypeTag (Json.obj kvs) t).get k = (Json.obj kvs).get k := by
  have hne : ¬ ((("type" : String), Json.str t).1 = k) :=
    fun hc => hk hc.symm
  simp only [setTypeTag, Json.get]
  rw [List.find?_cons_of_neg _ (by simpa using hne),
    find_filter_ne kvs "type" k hk]

theorem getType_setTypeTag (kvs : List (String × Json)) (t : String) :
    (setTypeTag (Json.obj kvs) t).get "type" = some (Json.str t) := by
  simp only [setTypeTag, Json.get]
  rw [List.find?_cons_of_pos]
  simp

theorem setTypeTag_extracts (kvs : List (String × Json)) (t : String) :
    extract_text_content (setTypeTag (Json.obj kvs) t) =
      extract_text_content (Json.obj kvs) ∧
    extract_thinking (setTypeTag (Json.obj kvs) t) =
      extract_thinking (Json.obj kvs) ∧
    extract_tool_uses (setTypeTag (Json.obj kvs) t) =
      extract_tool_uses (Json.obj kvs) ∧
    extract_tool_results (setTypeTag (Json.obj kvs) t) =
      extract_tool_results (Json.obj kvs) ∧
    extract_usage (setTypeTag (Json.obj kvs) t) =
      extract_usage (Json.obj kvs) ∧
    (setTypeTag (Json.obj kvs) t).getStr "result" =
      (Json.obj kvs).getStr "result" := by
  have hm := get_setTypeTag kvs t "message" (by decide)
  have hc := get_setTypeTag kvs t "content" (by decide)
  have hr := get_setTypeTag kvs t "result" (by decide)
  refine ⟨?_, ?_, ?_, ?_, ?_, ?_⟩
  · unfold extract_text_content
    rw [hm, hc]
  · unfold extract_thinking
    rw [hm]
  · unfold extract_tool_uses
    rw [hm]
  · unfold extract_tool_results
    rw [hm]
  · unfold extract_usage
    rw [hm]
  · unfold Json.getStr
    rw [hr]

/-- C3 counterexample: an input line whose type tag is the unrecognized
string "bogus" parses to an Unknown-typed record whose extracted message
text is present — the type-specific extraction fields are not absent. -/
theorem unknown_tag_fields_present_cex :
    (ClaudeEvent.parse jUnknownWithText).map ClaudeEvent.event_type =
      some (some .unknown) ∧
    (ClaudeEvent.parse jUnknownWithText).map ClaudeEvent.message =
      some (some "hi") := by
  constructor
  · decide
  · decide

/-- C3 (amended): parsing never fails because of an unrecognized tag and
the original payload is always retained, but extraction is uniform in
the type tag — replacing the tag of any object line changes only the
recorded type, never the extracted message, thinking, tool invocations,
tool outcomes, usage or result, so an Unknown-tagged event carries
whatever those extractors find in its payload. -/
theorem unknown_tag_extraction_uniform (kvs : List (String × Json))
    (t : String) :
    ((ClaudeEvent.parse (setTypeTag (Json.obj kvs) t)).isSome ↔
      (ClaudeEvent.parse (Json.obj kvs)).isSome) ∧
    (ClaudeEvent.parse (Json.obj kvs)).map ClaudeEvent.raw =
      (ClaudeEvent.parse (Json.obj kvs)).map (fun _ => Json.obj kvs) ∧
    (ClaudeEvent.parse (setTypeTag (Json.obj kvs) t)).map
        ClaudeEvent.event_type =
      (ClaudeEvent.parse (setTypeTag (Json.obj kvs) t)).map
        (fun _ => some (eventTypeOfTag t)) ∧
    (ClaudeEvent.parse (setTypeTag (Json.obj kvs) t)).map
        ClaudeEvent.message =
      (ClaudeEvent.parse (Json.obj kvs)).map ClaudeEvent.message ∧
    (ClaudeEvent.parse (setTypeTag (Json.obj kvs) t)).map
        ClaudeEvent.thinking =
      (ClaudeEvent.parse (Json.obj kvs)).map ClaudeEvent.thinking ∧
    (ClaudeEvent.parse (setTypeTag (Json.obj kvs) t)).map
        ClaudeEvent.tool_uses =
      (ClaudeEvent.parse (Json.obj kvs)).map ClaudeEvent.tool_uses ∧
    (ClaudeEvent.parse (setTypeTag (Json.obj kvs) t)).map
        ClaudeEvent.tool_results =
      (ClaudeEvent.parse (Json.obj kvs)).map ClaudeEvent.tool_results ∧
    (ClaudeEvent.parse (setTypeTag (Json.obj kvs) t)).map
        ClaudeEvent.usage =
      (ClaudeEvent.parse (Json.obj kvs)).map ClaudeEvent.usage ∧
    (ClaudeEvent.parse (setTypeTag (Json.obj kvs) t)).map
        ClaudeEvent.result =
      (ClaudeEvent.parse (Json.obj kvs)).map ClaudeEvent.result ∧
    (ClaudeEvent.parse (setTypeTag (Json.obj kvs) t)).map
        ClaudeEvent.tool_use_ids =
      (ClaudeEvent.parse (Json.obj kvs)).map ClaudeEvent.tool_use_ids := by
  obtain ⟨he1, he2, he3, he4, he5, he6⟩ := setTypeTag_extracts kvs t
  have htag := getType_setTypeTag kvs t
  unfold ClaudeEvent.parse
  rw [he4]
  cases hr : extract_tool_results (Json.obj kvs) with
  | none => simp [Option.bind]
  | some trs =>
    simp only [Option.bind, Option.map, Option.isSome, htag, Json.as_str,
      he1, he2, he3, he5, he6]
    refine ⟨Iff.rfl, rfl, rfl, rfl, rfl, rfl, rfl, rfl, rfl, rfl⟩

/-- C5: when the supervisor fails to spawn a pooled process, the pool
resolves the completion future with a synthetic failed result — the
non-zero surrogate status, the error text as the sole stderr line, no
stdout, no timeout flag, and `success()` false — instead of returning
the spawn error to the caller of `spawn`. -/
theorem pool_spawn_failure_synthetic_result (msg : String) :
    (poolCompletionResult (.error msg)).success = false ∧
    (poolCompletionResult (.error msg)).status = exitStatusDefault ∧
    exitStatusDefault ≠ 0 ∧
    (poolCompletionResult (.error msg)).stderr = [msg] ∧
    (poolCompletionResult (.error msg)).stdout = [] ∧
    (poolCompletionResult (.error msg)).timed_out = false :=
  ⟨rfl, rfl, by decide, rfl, rfl, rfl⟩

/-- C6: `success()` holds exactly when the exit status is the successful
one and the timed-out flag is clear; and whenever a timeout is
configured and output collection does not finish within it, the
assembled result is flagged timed-out and unsuccessful regardless of the
exit status. -/
theorem process_result_success_def (r : ProcessResult) (tc cf : Bool)
    (st : Nat) (o e : List String) (htc : tc = true) (hcf : cf = false) :
    (r.success = true ↔ r.status = 0 ∧ r.timed_out = false) ∧
    (spawnProcessResult tc cf st o e).timed_out = true ∧
    (spawnProcessResult tc cf st o e).success = false := by
  subst htc hcf
  refine ⟨?_, rfl, ?_⟩
  · simp [ProcessResult.success]
  · simp [ProcessResult.success, spawnProcessResult]

/-- Witness for C6 at a concrete result and a timed-out collection. -/
theorem process_result_success_def_witness :
    ((⟨7, [], [], false⟩ : ProcessResult).success = true ↔
      (⟨7, [], [], false⟩ : ProcessResult).status = 0 ∧
      (⟨7, [], [], false⟩ : ProcessResult).timed_out = false) ∧
    (spawnProcessResult true false 7 [] []).timed_out = true ∧
    (spawnProcessResult true false 7 [] []).success = false :=
  process_result_success_def ⟨7, [], [], false⟩ true false 7 [] [] rfl rfl

/-- C7: with pool concurrency limit N, every reachable pool state has at
most N tasks holding a slot — additional spawned tasks stay queued on
the semaphore until a running task completes and frees its permit. -/
theorem pool_concurrency_ceiling (N : Nat) (st : PoolState)
    (h : PoolReachable N st) : st.running ≤ N := by
  induction h with
  | refl => exact Nat.zero_le N
  | tail hsteps hstep ih =>
    cases hstep with
    | spawnTask => exact ih
    | acquirePermit hw hr => exact hr
    | completeTask hr => exact Nat.le_trans (Nat.sub_le _ _) ih

/-- Witness for C7: the state reached by spawning one task and letting
it acquire the single permit of a pool with N = 1. -/
theorem pool_concurrency_ceiling_witness :
    PoolReachable 1 { waiting := 0, running := 1 } ∧
    ({ waiting := 0, running := 1 } : PoolState).running ≤ 1 := by
  have h1 : PoolStep 1 poolInit { waiting := 1, running := 0 } :=
    PoolStep.spawnTask poolInit
  have h2 : PoolStep 1 { waiting := 1, running := 0 }
      { waiting := 0, running := 1 } :=
    PoolStep.acquirePermit { waiting := 1, running := 0 }
      (by decide) (by decide)
  have hr : PoolReachable 1 { waiting := 0, running := 1 } :=
    Relation.ReflTransGen.tail
      (Relation.ReflTransGen.tail Relation.ReflTransGen.refl h1) h2
  exact ⟨hr, pool_concurrency_ceiling 1 _ hr⟩

theorem utf8Len_append (a b : List Char) :
    utf8Len (a ++ b) = utf8Len a + utf8Len b := by
  unfold utf8Len
  rw [List.map_append, List.sum_append]

theorem utf8Len_pos_of_ne_nil (a : List Char) (h : a ≠ []) :
    0 < utf8Len a := by
  cases a with
  | nil => exact absurd rfl h
  | cons c rest =>
    unfold utf8Len
    simp only [List.map_cons, List.sum_cons]
    exact Nat.lt_of_lt_of_le (Char.utf8Size_pos c) (Nat.le_add_right _ _)

theorem takeBytes_append (p q : List Char) :
    takeBytes (p ++ q) (utf8Len p) = some p := by
  induction p with
  | nil => simp [utf8Len, takeBytes]
  | cons c rest ih =>
    have hlen : utf8Len (c :: rest) = c.utf8Size + utf8Len rest := by
      unfold utf8Len
      simp
    obtain ⟨m, hm⟩ : ∃ m, utf8Len (c :: rest) = m + 1 := by
      refine ⟨utf8Len (c :: rest) - 1, ?_⟩
      have hpos : 0 < utf8Len (c :: rest) :=
        utf8Len_pos_of_ne_nil _ (by simp)
      omega
    rw [hm]
    have hle : c.utf8Size ≤ m + 1 := by
      rw [← hm, hlen]
      exact Nat.le_add_right _ _
    have harg : m + 1 - c.utf8Size = utf8Len rest := by
      rw [← hm, hlen]
      omega
    change (if c.utf8Size ≤ m + 1 then
      (takeBytes (rest ++ q) (m + 1 - c.utf8Size)).map (c :: ·)
      else none) = some (c :: rest)
    rw [if_pos hle, harg, ih]
    rfl

theorem strTakeBytes_append (p rest : String) :
    strTakeBytes (p ++ rest) (strByteLen p) = some p := by
  unfold strTakeBytes strByteLen
  have hdata : (p ++ rest).toList = p.toList ++ rest.toList := rfl
  rw [hdata, takeBytes_append]
  rfl

theorem strByteLen_append (p rest : String) :
    strByteLen (p ++ rest) = strByteLen p + strByteLen rest := by
  unfold strByteLen
  have hdata : (p ++ rest).toList = p.toList ++ rest.toList := rfl
  rw [hdata, utf8Len_append]

theorem strByteLen_pos_of_ne_empty (s : String) (h : s ≠ "") :
    0 < strByteLen s := by
  unfold strByteLen
  refine utf8Len_pos_of_ne_nil s.toList ?_
  intro hc
  apply h
  cases s with
  | mk data =>
    cases data with
    | nil => rfl
    | cons c cs => simp [String.toList] at hc

/-- C8 counterexample: a scalar tool-result content of 250 two-byte
characters is, after noise stripping, longer than 200 characters, yet
the summary is not the first 200 characters plus marker: the cap is
applied at 200 bytes, keeping only 100 characters. -/
theorem summary_cap_not_characters_cex :
    (strip_noise s250).length > 200 ∧
    scalarSummary s250 ≠
      some (some ((strip_noise s250).take 200 ++ "...")) ∧
    scalarSummary s250 =
      some (some (String.mk (List.replicate 100 'é') ++ "...")) := by
  refine ⟨by decide, by decide, by decide⟩

/-- C8 (amended): the hard cap of the tool-result summary is 200 UTF-8
bytes: when the cleaned scalar content splits as p ++ rest with p
spanning exactly 200 bytes and rest non-empty, the summary is exactly p
followed by the truncation marker; and in the array case only the first
text-bearing block becomes the summary, capped the same way. -/
theorem summary_cap_bytes (s p rest : String) (items : List Json)
    (hsplit : strip_noise s = p ++ rest) (hp : strByteLen p = 200)
    (hrest : rest ≠ "")
    (hfirst : items.findSome?
      (fun item => (item.get "text").bind Json.as_str) = some s) :
    scalarSummary s = some (some (p ++ "...")) ∧
    contentSummaryOf (some (.str s)) = some (some (p ++ "...")) ∧
    contentSummaryOf (some (.arr items)) = some (some (p ++ "...")) := by
  have hlen : strByteLen (strip_noise s) > 200 := by
    rw [hsplit, strByteLen_append, hp]
    have := strByteLen_pos_of_ne_empty rest hrest
    omega
  have htake : strTakeBytes (strip_noise s) 200 = some p := by
    rw [hsplit, ← hp, strTakeBytes_append]
  have hscalar : scalarSummary s = some (some (p ++ "...")) := by
    unfold scalarSummary
    rw [if_pos hlen, htake]
    rfl
  have hcap : cappedSummary s = some (p ++ "...") := by
    unfold cappedSummary
    rw [if_pos hlen, htake]
    rfl
  refine ⟨hscalar, hscalar, ?_⟩
  show (match items.findSome?
      (fun item => (item.get "text").bind Json.as_str) with
    | some s => (cappedSummary s).map some
    | none => some none) = some (some (p ++ "..."))
  rw [hfirst]
  show (cappedSummary s).map some = some (some (p ++ "..."))
  rw [hcap]
  rfl

/-- Witness for C8 at 201 ASCII characters: the cleaned content splits
as 200 bytes plus one, and both the scalar and the array branch yield
the 200-byte prefix with the marker. -/
theorem summary_cap_bytes_witness :
    strip_noise a201 = a200 ++ "a" ∧ strByteLen a200 = 200 ∧
    ("a" : String) ≠ "" ∧
    [Json.obj [("text", Json.str a201)]].findSome?
      (fun item => (item.get "text").bind Json.as_str) = some a201 ∧
    (scalarSummary a201 = some (some (a200 ++ "...")) ∧
    contentSummaryOf (some (.str a201)) = some (some (a200 ++ "...")) ∧
    contentSummaryOf (some (.arr [Json.obj [("text", Json.str a201)]])) =
      some (some (a200 ++ "..."))) :=
  ⟨by decide, by decide, by decide, by decide,
    summary_cap_bytes a201 a200 "a" [Json.obj [("text", Json.str a201)]]
      (by decide) (by decide) (by decide) (by decide)⟩

/-- C10: the summary truncation is not total.  On the cleaned scalar
content `e67` (201 bytes of three-byte characters) byte 200 falls inside
a character, the modeled byte slice is undefined, and the Rust code
panics — the summary computation, the tool-result collection and the
whole parse of such a line are modeled as `none`. -/
theorem summary_truncation_panics :
    strByteLen (strip_noise e67) > 200 ∧
    strTakeBytes (strip_noise e67) 200 = none ∧
    scalarSummary e67 = none ∧
    extract_tool_results jPanic = none ∧
    (ClaudeEvent.parse jPanic).isSome = false := by
  refine ⟨by decide, by decide, by decide, by decide, by decide⟩

theorem ingestLoop_counts (storeFails : ClaudeEvent → Bool)
    (f : Option String) (st : GraphState) (lines : List (Option Json)) :
    (ingestLoop storeFails f st lines).2.1 +
      (ingestLoop storeFails f st lines).2.2 = lines.length := by
  induction lines generalizing st with
  | nil => rfl
  | cons line rest ih =>
    unfold ingestLoop
    cases hp : parseLine line with
    | none =>
      simp only [hp, List.length_cons]
      have := ih st
      omega
    | some ev =>
      simp only [hp]
      by_cases hb : storeFails ev
      · rw [if_pos hb]
        simp only [List.length_cons]
        have := ih (storeEventFailedCommit st ev f)
        omega
      · rw [if_neg hb]
        simp only [List.length_cons]
        have := ih (store_event st ev f).1
        omega

/-- C9: batch ingestion never aborts — the stored and error counters
always account for every line of the batch, whatever mix of parse
failures and storage errors occurs; and on the concrete five-line batch
with exactly one malformed line the handler reports 4 stored and 1
error, with all four valid events queryable by uuid afterwards. -/
theorem ingest_batch_partial_failure (s : GraphState)
    (lines : List (Option Json)) (oracle : ClaudeEvent → Bool)
    (f : Option String) :
    ((ingest_events s lines oracle f).2.1 +
      (ingest_events s lines oracle f).2.2 = lines.length) ∧
    (ingest_events GraphState.empty batch5 (fun _ => false) none).2.1 =
      4 ∧
    (ingest_events GraphState.empty batch5 (fun _ => false) none).2.2 =
      1 ∧
    (get_event_by_uuid (ingest_events GraphState.empty batch5
      (fun _ => false) none).1 "u1").isSome = true ∧
    (get_event_by_uuid (ingest_events GraphState.empty batch5
      (fun _ => false) none).1 "u2").isSome = true ∧
    (get_event_by_uuid (ingest_events GraphState.empty batch5
      (fun _ => false) none).1 "u3").isSome = true ∧
    (get_event_by_uuid (ingest_events GraphState.empty batch5
      (fun _ => false) none).1 "u4").isSome = true :=
  ⟨ingestLoop_counts oracle f s lines, by decide, by decide, by decide,
    by decide, by decide, by decide⟩

end Forky
